import Mathlib

/-!
Verification of the module-resolution configuration logic of
`packages/react-scripts/config/modules.js` (create-fast-react-app).

The JavaScript source is shallowly embedded: dynamically typed JS values
become the inductive `JsVal` (objects are association lists in property
insertion order, mirroring JS object semantics), thrown exceptions become
`Except JsErr`, and the Node `path` module (used only on POSIX-style
absolute base directories here) is modelled segment-wise by `pathResolve`,
`normPath` and friends.  Each function below mirrors one function of the
source file, keeping its name.
-/

/-- Model of a JavaScript runtime value, as far as `modules.js` needs:
`undef` is `undefined` (also the result of reading an absent property),
`obj` is a plain object as an association list of own enumerable
properties in insertion order. -/
inductive JsVal where
  | undef : JsVal
  | null : JsVal
  | bool : Bool → JsVal
  | num : Int → JsVal
  | str : String → JsVal
  | arr : List JsVal → JsVal
  | obj : List (String × JsVal) → JsVal

/-- Model of a thrown JS exception: `typeError` stands for the `TypeError`s
raised by property access on `undefined`/`null`, by `path.resolve` on a
non-string argument, and by `.replace` on a non-string; `error msg` is an
explicit `throw new Error(msg)` (the `chalk` colour wrapper around the
`baseUrl` message is dropped, keeping the plain text). -/
inductive JsErr where
  | typeError : JsErr
  | error : String → JsErr

/-- JS truthiness of a modelled value. -/
def truthy : JsVal → Bool
  | JsVal.undef => false
  | JsVal.null => false
  | JsVal.bool b => b
  | JsVal.num n => n != 0
  | JsVal.str s => s != ""
  | JsVal.arr _ => true
  | JsVal.obj _ => true

/-- Whether `typeof v` is the string `"object"` (true for `null`, arrays
and plain objects). -/
def typeofIsObject : JsVal → Bool
  | JsVal.null => true
  | JsVal.arr _ => true
  | JsVal.obj _ => true
  | _ => false

/-- Extract a JS string, for the places where the source hands a value to
`path.resolve` or `.replace`, both of which throw a `TypeError` on
non-strings. -/
def JsVal.asStr : JsVal → Option String
  | JsVal.str s => some s
  | _ => none

/-- Property read `v.k`: throws `TypeError` on `undefined`/`null`, yields
the stored value on objects (or `undefined` when absent), and `undefined`
on every other primitive or array (no such named own property arises in
this code). -/
def getField : JsVal → String → Except JsErr JsVal
  | JsVal.undef, _ => Except.error JsErr.typeError
  | JsVal.null, _ => Except.error JsErr.typeError
  | JsVal.obj fields, k => Except.ok ((List.lookup k fields).getD JsVal.undef)
  | _, _ => Except.ok JsVal.undef

/-- Property write / literal-key overwrite on an association list: if the
key is present its first occurrence is updated in place (JS keeps the
original insertion position), otherwise the pair is appended. -/
def objSet : List (String × JsVal) → String → JsVal → List (String × JsVal)
  | [], k, v => [(k, v)]
  | (k', v') :: rest, k, v =>
    if k' = k then (k, v) :: rest else (k', v') :: objSet rest k v

/-- Spread `{...a, ...b}`: overlay `b`'s entries, in order, on top of `a`. -/
def objSpread (a b : List (String × JsVal)) : List (String × JsVal) :=
  b.foldl (fun acc kv => objSet acc kv.1 kv.2) a

/-- Own enumerable entries of a value, as produced by object spread and by
`Object.keys`: objects give their fields, arrays give index-keyed
entries, strings give index-keyed characters, everything else spreads to
nothing. -/
def spreadEntries : JsVal → List (String × JsVal)
  | JsVal.obj fields => fields
  | JsVal.arr xs => xs.enum.map (fun p => (toString p.1, p.2))
  | JsVal.str s => s.toList.enum.map (fun p => (toString p.1, JsVal.str (String.mk [p.2])))
  | _ => []

/-! ### POSIX path model

The source only ever resolves against absolute project directories, so the
model treats every path as rooted: a path string is split on `/`, the
segments are normalised (empty and `.` segments dropped, `..` pops, and
`..` at the root stays at the root, as Node does for absolute paths), and
rendered back with a leading `/`. -/

/-- Split a path string into raw segments at `/` characters. -/
def pathSegsChars : List Char → List (List Char)
  | [] => [[]]
  | c :: rest =>
    let tail := pathSegsChars rest
    if c = '/' then [] :: tail
    else
      match tail with
      | [] => [[c]]
      | seg :: more => (c :: seg) :: more

/-- Raw `/`-separated segments of a path string. -/
def pathSegs (s : String) : List String :=
  (pathSegsChars s.toList).map (fun cs => String.mk cs)

/-- Normalise segments: drop empty and `.`, let `..` pop the previous
segment (staying at the root when there is none). -/
def normSegs (segs : List String) : List String :=
  segs.foldl
    (fun acc seg =>
      if seg = "" then acc
      else if seg = "." then acc
      else if seg = ".." then acc.dropLast
      else acc ++ [seg])
    []

/-- Render normalised segments as an absolute path string. -/
def joinSegs : List String → String
  | [] => ""
  | [s] => s
  | s :: rest => s ++ "/" ++ joinSegs rest

/-- Canonical absolute form of a path string. -/
def normPath (s : String) : String :=
  "/" ++ joinSegs (normSegs (pathSegs s))

/-- Whether a path string is written as absolute. -/
def isAbsPath (s : String) : Bool :=
  match s.toList with
  | '/' :: _ => true
  | _ => false

/-- Model of `path.resolve(base, s)` for an absolute `base`. -/
def pathResolve (base s : String) : String :=
  if isAbsPath s then normPath s else normPath (base ++ "/" ++ s)

/-- Model of the test `path.relative(a, b) === ''` for absolute `a`, `b`:
the relative path between them is empty exactly when they normalise to the
same absolute path. -/
def pathRelEmpty (a b : String) : Bool :=
  normPath a == normPath b

/-- Model of `path.dirname` on an absolute path (normalising, which the
real `dirname` does not do; the result only ever feeds the opaque parent
loader). -/
def dirnameStr (s : String) : String :=
  "/" ++ joinSegs ((normSegs (pathSegs s)).dropLast)

/-- Model of `s.replace(/\/\*$/, '')`: strip one trailing `/*`. -/
def stripSlashStar (s : String) : String :=
  match s.toList.reverse with
  | '*' :: '/' :: rest => String.mk rest.reverse
  | _ => s

/-! ### Project paths and the functions of `modules.js` -/

/-- Absolute project directories supplied by the external `paths` module
(`paths.appPath` is the project root). -/
structure ProjectPaths where
  appPath : String
  appSrc : String
  appNodeModules : String
  appTsConfig : String
  appJsConfig : String

/-- Message of the error thrown for an unsupported `baseUrl` (without the
`chalk` colour codes). -/
def unsupportedBaseUrlMsg : String :=
  "Your project\x27s \x60baseUrl\x60 can only be set to \x60src\x60 or \x60node_modules\x60. Create React App does not support other values at this time."

/-- Message of the error thrown when both config files exist. -/
def conflictingConfigMsg : String :=
  "You have both a tsconfig.json and a jsconfig.json. If you are using TypeScript please remove your jsconfig.json file."

/-- Message of `configPathsRaw` for a non-object own `paths`. -/
def invalidOwnPathsMsg : String :=
  "create-react-app:configPathsRaw: compilerOptions.paths must be object"

/-- Message of `configPathsRaw` for a non-object inherited `paths`. -/
def invalidExtPathsMsg : String :=
  "create-react-app:configPathsRaw: compilerOptions.extends->compilerOptions.paths must be object"

/-- Message of `readConfig` when handed a missing config. -/
def noConfigMsg : String :=
  "create-react-app:readConfig: there is no [ts|js]config file found"

/-- Embedding of `getAdditionalModulePaths(options)`: reads
`options.baseUrl`, returns `''` when it is falsy, otherwise resolves it
against the project root and compares (via `path.relative(..) === ''`)
with `node_modules`, `src` and the root in that order. -/
def getAdditionalModulePaths (pp : ProjectPaths) (options : JsVal) : Except JsErr JsVal :=
  match getField options "baseUrl" with
  | Except.error e => Except.error e
  | Except.ok baseUrl =>
    if truthy baseUrl = false then Except.ok (JsVal.str "") else
    match baseUrl.asStr with
    | none => Except.error JsErr.typeError
    | some b =>
      let baseUrlResolved := pathResolve pp.appPath b
      if pathRelEmpty pp.appNodeModules baseUrlResolved then Except.ok JsVal.null
      else if pathRelEmpty pp.appSrc baseUrlResolved then
        Except.ok (JsVal.arr [JsVal.str pp.appSrc])
      else if pathRelEmpty pp.appPath baseUrlResolved then Except.ok JsVal.null
      else Except.error (JsErr.error unsupportedBaseUrlMsg)

/-- Embedding of `getWebpackAliases(options)`.  The source destructures
`const { baseUrl, paths } = options`, so inside this function the local
`paths` SHADOWS the project-paths module: `paths.appPath` and
`paths.appSrc` are read off `options.paths`, and the function never sees
the real project directories — hence no `ProjectPaths` argument. -/
def getWebpackAliases (options : JsVal) : Except JsErr JsVal :=
  match getField options "baseUrl" with
  | Except.error e => Except.error e
  | Except.ok baseUrl =>
    match getField options "paths" with
    | Except.error e => Except.error e
    | Except.ok pathsV =>
      if truthy baseUrl = false ∧ truthy pathsV = true then Except.ok pathsV
      else if truthy baseUrl = false then Except.ok (JsVal.obj [])
      else
        match getField pathsV "appPath" with
        | Except.error e => Except.error e
        | Except.ok appPathV =>
          match appPathV.asStr with
          | none => Except.error JsErr.typeError
          | some ap =>
            match baseUrl.asStr with
            | none => Except.error JsErr.typeError
            | some b =>
              let baseUrlResolved := pathResolve ap b
              if pathRelEmpty ap baseUrlResolved then
                match getField pathsV "appSrc" with
                | Except.error e => Except.error e
                | Except.ok appSrcV =>
                  Except.ok (JsVal.obj (objSpread [("src", appSrcV)] (spreadEntries pathsV)))
              else Except.ok JsVal.undef

/-- Embedding of `getJestAliases(options)`: reads `options.baseUrl` only
(no shadowing here), resolves against the real project root, and returns
the fixed mapper exactly when the resolution is the root; otherwise the
function falls off its end, i.e. returns `undefined`. -/
def getJestAliases (pp : ProjectPaths) (options : JsVal) : Except JsErr JsVal :=
  match getField options "baseUrl" with
  | Except.error e => Except.error e
  | Except.ok baseUrl =>
    if truthy baseUrl = false then Except.ok (JsVal.obj []) else
    match baseUrl.asStr with
    | none => Except.error JsErr.typeError
    | some b =>
      let baseUrlResolved := pathResolve pp.appPath b
      if pathRelEmpty pp.appPath baseUrlResolved then
        Except.ok (JsVal.obj [("^src/(.*)$", JsVal.str "<rootDir>/src/$1")])
      else Except.ok JsVal.undef

/-- Embedding of the ternary
`conf.compilerOptions && conf.compilerOptions.paths ? conf.compilerOptions.paths : {}`
used twice by `configPathsRaw`: a falsy `compilerOptions` or a falsy
`paths` yields the empty object. -/
def ternaryPaths (v : JsVal) : Except JsErr JsVal :=
  match getField v "compilerOptions" with
  | Except.error e => Except.error e
  | Except.ok co =>
    if truthy co = false then Except.ok (JsVal.obj []) else
    match getField co "paths" with
    | Except.error e => Except.error e
    | Except.ok p =>
      if truthy p then Except.ok p else Except.ok (JsVal.obj [])

/-- Embedding of `configPathsRaw(conf)`: extract the own and the inherited
(`conf.extends`, defaulted to `{}` when falsy) `compilerOptions.paths`,
reject either when its JS `typeof` is not `object`, and return
`{...confPaths, ...extPaths}` — the parent entries overlaid on the
child entries. -/
def configPathsRaw (conf : JsVal) : Except JsErr JsVal :=
  match ternaryPaths conf with
  | Except.error e => Except.error e
  | Except.ok confPaths =>
    match getField conf "extends" with
    | Except.error e => Except.error e
    | Except.ok extRaw =>
      let ext := if truthy extRaw then extRaw else JsVal.obj []
      match ternaryPaths ext with
      | Except.error e => Except.error e
      | Except.ok extPaths =>
        if typeofIsObject confPaths = false then
          Except.error (JsErr.error invalidOwnPathsMsg)
        else if typeofIsObject extPaths = false then
          Except.error (JsErr.error invalidExtPathsMsg)
        else
          Except.ok (JsVal.obj (objSpread (spreadEntries confPaths) (spreadEntries extPaths)))

/-- The string the alias-map reduce hands to `.replace`: for an array
value it is `value[0]` (`undefined` — hence `none` — when empty),
otherwise the value itself; non-strings make `.replace` throw. -/
def pathTarget : JsVal → Option String
  | JsVal.arr [] => none
  | JsVal.arr (x :: _) => x.asStr
  | v => v.asStr

/-- The body of the `Object.keys(pathsRaw).reduce(...)` in `readConfig`:
walk the entries in order, binding the key with one trailing `/*`
stripped to the first target with its trailing `/*` stripped, resolved
against the real project root (`resolve` and `paths` are captured from
the enclosing scope there, so no shadowing applies). -/
def aliasFold (pp : ProjectPaths) (acc : List (String × JsVal)) :
    List (String × JsVal) → Except JsErr (List (String × JsVal))
  | [] => Except.ok acc
  | (k, v) :: rest =>
    match pathTarget v with
    | none => Except.error JsErr.typeError
    | some t =>
      aliasFold pp
        (objSet acc (stripSlashStar k)
          (JsVal.str (pathResolve pp.appPath (stripSlashStar t)))) rest

/-- The alias map built by `readConfig` from the merged raw paths. -/
def aliasMapOf (pp : ProjectPaths) (pathsRaw : JsVal) :
    Except JsErr (List (String × JsVal)) :=
  aliasFold pp [] (spreadEntries pathsRaw)

/-- Embedding of `readConfig(conf, configDir)`; `loadParent` models the
`require(extPath)` call (load failures are outside the modelled scope).
The function copies `conf`, replaces `extends` by the loaded parent
object (or `{}` when `extends` is falsy), merges the raw paths via
`configPathsRaw`, builds the alias map, and returns
`{...config, compilerOptions: {...config.compilerOptions, paths:
{...config.compilerOptions.paths, ...aliasMap}}}` — reading
`config.compilerOptions.paths` throws a `TypeError` when
`compilerOptions` is nullish, as in the source. -/
def readConfig (pp : ProjectPaths) (loadParent : String → JsVal)
    (conf : JsVal) (configDir : String) : Except JsErr JsVal :=
  if truthy conf = false then Except.error (JsErr.error noConfigMsg) else
  let confdir := dirnameStr configDir
  match getField conf "extends" with
  | Except.error e => Except.error e
  | Except.ok extUrl =>
    let extPathE : Except JsErr String :=
      if truthy extUrl then
        match extUrl.asStr with
        | none => Except.error JsErr.typeError
        | some s => Except.ok (pathResolve confdir s)
      else Except.ok ""
    match extPathE with
    | Except.error e => Except.error e
    | Except.ok extPath =>
      let extVal := if truthy extUrl then loadParent extPath else JsVal.obj []
      let config := JsVal.obj (objSet (spreadEntries conf) "extends" extVal)
      match configPathsRaw config with
      | Except.error e => Except.error e
      | Except.ok pathsRaw =>
        match aliasMapOf pp pathsRaw with
        | Except.error e => Except.error e
        | Except.ok aliasMap =>
          match getField config "compilerOptions" with
          | Except.error e => Except.error e
          | Except.ok co =>
            match getField co "paths" with
            | Except.error e => Except.error e
            | Except.ok coPaths =>
              Except.ok (JsVal.obj (objSet (spreadEntries config) "compilerOptions"
                (JsVal.obj (objSet (spreadEntries co) "paths"
                  (JsVal.obj (objSpread (spreadEntries coPaths) aliasMap))))))

/-- The merge step as `getModules` performs it for either config flavour:
`const hasExtends = config.extends; if (hasExtends) { config =
readConfig(config, dir); }` — `readConfig` runs only when `extends` is
truthy, otherwise the config is kept as is. -/
def mergeConfigStep (pp : ProjectPaths) (loadParent : String → JsVal)
    (config : JsVal) (configDir : String) : Except JsErr JsVal :=
  match getField config "extends" with
  | Except.error e => Except.error e
  | Except.ok ext =>
    if truthy ext then readConfig pp loadParent config configDir
    else Except.ok config

/-- External collaborators of `getModules`: the two existence checks, the
parsed contents the external loaders would return for each config file,
and the parent loader used by `readConfig`. -/
structure ModulesEnv where
  hasTsConfig : Bool
  hasJsConfig : Bool
  tsConfig : JsVal
  jsConfig : JsVal
  loadParent : String → JsVal

/-- The bundle `getModules` returns. -/
structure ModulesBundle where
  additionalModulePaths : JsVal
  webpackAliases : JsVal
  jestAliases : JsVal
  hasTsConfig : Bool

/-- Embedding of the top-level `getModules()`: the conflicting-config
check comes first; then the config is selected and (only when `extends`
is truthy) merged; then `config = config || {}`,
`options = config.compilerOptions || {}`, and the three alias
computations run in source order. -/
def getModules (pp : ProjectPaths) (env : ModulesEnv) : Except JsErr ModulesBundle :=
  if env.hasTsConfig ∧ env.hasJsConfig then
    Except.error (JsErr.error conflictingConfigMsg)
  else
    let configE : Except JsErr JsVal :=
      if env.hasTsConfig then
        mergeConfigStep pp env.loadParent env.tsConfig pp.appTsConfig
      else if env.hasJsConfig then
        mergeConfigStep pp env.loadParent env.jsConfig pp.appJsConfig
      else Except.ok JsVal.undef
    match configE with
    | Except.error e => Except.error e
    | Except.ok config0 =>
      let config := if truthy config0 then config0 else JsVal.obj []
      match getField config "compilerOptions" with
      | Except.error e => Except.error e
      | Except.ok optionsV =>
        let options := if truthy optionsV then optionsV else JsVal.obj []
        match getAdditionalModulePaths pp options with
        | Except.error e => Except.error e
        | Except.ok amp =>
          match getWebpackAliases options with
          | Except.error e => Except.error e
          | Except.ok wa =>
            match getJestAliases pp options with
            | Except.error e => Except.error e
            | Except.ok ja =>
              Except.ok (ModulesBundle.mk amp wa ja env.hasTsConfig)

/-- Concrete project directories used by the witnesses. -/
def ppEx : ProjectPaths :=
  ProjectPaths.mk "/app" "/app/src" "/app/node_modules" "/app/tsconfig.json" "/app/jsconfig.json"

/-! ### Association-list lemmas -/

theorem truthy_obj (fs : List (String × JsVal)) : truthy (JsVal.obj fs) = true := rfl

theorem typeofIsObject_obj (fs : List (String × JsVal)) :
    typeofIsObject (JsVal.obj fs) = true := rfl

theorem objSpread_nil (a : List (String × JsVal)) : objSpread a [] = a := rfl

theorem objSpread_cons (a : List (String × JsVal)) (k : String) (v : JsVal)
    (rest : List (String × JsVal)) :
    objSpread a ((k, v) :: rest) = objSpread (objSet a k v) rest := rfl

theorem lookup_objSet_self (a : List (String × JsVal)) (k : String) (v : JsVal) :
    List.lookup k (objSet a k v) = some v := by
  induction a with
  | nil => simp [objSet, List.lookup]
  | cons kv rest ih =>
    obtain ⟨k', v'⟩ := kv
    by_cases h : k' = k
    · subst h
      simp [objSet, List.lookup]
    · have hbeq : (k == k') = false := beq_eq_false_iff_ne.mpr (Ne.symm h)
      simp [objSet, h, List.lookup, hbeq, ih]

theorem lookup_objSet_other (a : List (String × JsVal)) (k k' : String) (v : JsVal)
    (h : k ≠ k') : List.lookup k (objSet a k' v) = List.lookup k a := by
  have hbeq : (k == k') = false := beq_eq_false_iff_ne.mpr h
  induction a with
  | nil => simp [objSet, List.lookup, hbeq]
  | cons kv rest ih =>
    obtain ⟨k₀, v₀⟩ := kv
    by_cases h0 : k₀ = k'
    · subst h0
      simp [objSet, List.lookup, hbeq]
    · cases hk0 : (k == k₀) <;> simp [objSet, h0, List.lookup, hk0, ih]

theorem lookup_objSpread_notin (b : List (String × JsVal)) :
    ∀ (a : List (String × JsVal)) (k : String),
      k ∉ b.map Prod.fst →
      List.lookup k (objSpread a b) = List.lookup k a := by
  induction b with
  | nil => intro a k _; rfl
  | cons kv rest ih =>
    intro a k h
    obtain ⟨k', v'⟩ := kv
    rw [List.map_cons, List.mem_cons] at h
    push_neg at h
    rw [objSpread_cons, ih (objSet a k' v') k h.2, lookup_objSet_other a k k' v' h.1]

theorem lookup_objSpread_right (b : List (String × JsVal)) :
    ∀ (a : List (String × JsVal)) (k : String) (v : JsVal),
      (b.map Prod.fst).Nodup → List.lookup k b = some v →
      List.lookup k (objSpread a b) = some v := by
  induction b with
  | nil => intro a k v _ hb; simp [List.lookup] at hb
  | cons kv rest ih =>
    intro a k v hnd hb
    obtain ⟨k', v'⟩ := kv
    rw [List.map_cons, List.nodup_cons] at hnd
    by_cases h : k = k'
    · subst h
      have hv : v' = v := by simpa [List.lookup] using hb
      subst hv
      rw [objSpread_cons, lookup_objSpread_notin rest (objSet a k v') k hnd.1,
        lookup_objSet_self]
    · have hbeq : (k == k') = false := beq_eq_false_iff_ne.mpr h
      have hb' : List.lookup k rest = some v := by simpa [List.lookup, hbeq] using hb
      rw [objSpread_cons]
      exact ih (objSet a k' v') k v hnd.2 hb'

/-! ### Claims -/

/-- C1: for every options object, `getAdditionalModulePaths` returns the
empty-string sentinel when `baseUrl` is absent; returns `null` when
`baseUrl` resolved against the project root equals the `node_modules`
directory or the project root itself (relative path empty); and returns
the single-element sequence `[appSrc]` when it equals the `src`
directory.  The hypotheses record that the three project directories are
distinct, as they always are (`src` and `node_modules` are proper
subdirectories of the root). -/
theorem getAdditionalModulePaths_cases (pp : ProjectPaths) (options : JsVal)
    (hsn : normPath pp.appSrc ≠ normPath pp.appNodeModules)
    (hps : normPath pp.appPath ≠ normPath pp.appSrc) :
    (getField options "baseUrl" = Except.ok JsVal.undef →
      getAdditionalModulePaths pp options = Except.ok (JsVal.str "")) ∧
    (∀ b : String, getField options "baseUrl" = Except.ok (JsVal.str b) → b ≠ "" →
      ((normPath (pathResolve pp.appPath b) = normPath pp.appNodeModules ∨
        normPath (pathResolve pp.appPath b) = normPath pp.appPath) →
        getAdditionalModulePaths pp options = Except.ok JsVal.null) ∧
      (normPath (pathResolve pp.appPath b) = normPath pp.appSrc →
        getAdditionalModulePaths pp options = Except.ok (JsVal.arr [JsVal.str pp.appSrc]))) := by
  constructor
  · intro h
    simp [getAdditionalModulePaths, h, truthy]
  · intro b hb hne
    constructor
    · intro hor
      rcases hor with hnm | hroot
      · have c1 : normPath pp.appNodeModules = normPath (pathResolve pp.appPath b) := hnm.symm
        simp [getAdditionalModulePaths, hb, truthy, hne, JsVal.asStr, pathRelEmpty, c1]
      · by_cases c1 : normPath pp.appNodeModules = normPath (pathResolve pp.appPath b)
        · simp [getAdditionalModulePaths, hb, truthy, hne, JsVal.asStr, pathRelEmpty, c1]
        · have c2 : ¬ normPath pp.appSrc = normPath (pathResolve pp.appPath b) := by
            rw [hroot]; exact fun h => hps h.symm
          have c3 : normPath pp.appPath = normPath (pathResolve pp.appPath b) := hroot.symm
          simp [getAdditionalModulePaths, hb, truthy, hne, JsVal.asStr, pathRelEmpty, c1, c2, c3]
    · intro hsrc
      have c1 : ¬ normPath pp.appNodeModules = normPath (pathResolve pp.appPath b) := by
        rw [hsrc]; exact fun h => hsn h.symm
      have c2 : normPath pp.appSrc = normPath (pathResolve pp.appPath b) := hsrc.symm
      simp [getAdditionalModulePaths, hb, truthy, hne, JsVal.asStr, pathRelEmpty, c1, c2]

/-- Witness for C1: with the example project paths and `baseUrl: "src"`,
the enabled sequence `[appSrc]` is returned. -/
theorem getAdditionalModulePaths_cases_witness :
    getAdditionalModulePaths ppEx (JsVal.obj [("baseUrl", JsVal.str "src")]) =
      Except.ok (JsVal.arr [JsVal.str "/app/src"]) :=
  ((getAdditionalModulePaths_cases ppEx (JsVal.obj [("baseUrl", JsVal.str "src")])
      (by decide) (by decide)).2 "src" rfl (by decide)).2 (by decide)

/-- C2: for every present (nonempty-string) `baseUrl`,
`getAdditionalModulePaths` throws exactly when the resolution matches
none of `node_modules`, `src` and the project root, and the error thrown
then is the unsupported-`baseUrl` error. -/
theorem getAdditionalModulePaths_error_iff (pp : ProjectPaths) (options : JsVal)
    (b : String) (hb : getField options "baseUrl" = Except.ok (JsVal.str b))
    (hne : b ≠ "") :
    ((∃ e, getAdditionalModulePaths pp options = Except.error e) ↔
      (pathRelEmpty pp.appNodeModules (pathResolve pp.appPath b) = false ∧
       pathRelEmpty pp.appSrc (pathResolve pp.appPath b) = false ∧
       pathRelEmpty pp.appPath (pathResolve pp.appPath b) = false)) ∧
    (pathRelEmpty pp.appNodeModules (pathResolve pp.appPath b) = false →
     pathRelEmpty pp.appSrc (pathResolve pp.appPath b) = false →
     pathRelEmpty pp.appPath (pathResolve pp.appPath b) = false →
      getAdditionalModulePaths pp options =
        Except.error (JsErr.error unsupportedBaseUrlMsg)) := by
  cases hnm : pathRelEmpty pp.appNodeModules (pathResolve pp.appPath b) <;>
    cases hsrc : pathRelEmpty pp.appSrc (pathResolve pp.appPath b) <;>
      cases hroot : pathRelEmpty pp.appPath (pathResolve pp.appPath b) <;>
        simp [getAdditionalModulePaths, hb, truthy, hne, JsVal.asStr, hnm, hsrc, hroot]

/-- Witness for C2: with the example project paths, `baseUrl:
"./packages/shared"` resolves to none of the three allowed directories
and the unsupported-`baseUrl` error is thrown. -/
theorem getAdditionalModulePaths_error_iff_witness :
    getAdditionalModulePaths ppEx (JsVal.obj [("baseUrl", JsVal.str "./packages/shared")]) =
      Except.error (JsErr.error unsupportedBaseUrlMsg) :=
  (getAdditionalModulePaths_error_iff ppEx
      (JsVal.obj [("baseUrl", JsVal.str "./packages/shared")]) "./packages/shared"
      rfl (by decide)).2 (by decide) (by decide) (by decide)

/-- C9: `getJestAliases` returns the empty mapping when `baseUrl` is
absent, returns exactly the fixed mapping from pattern to rootDir
template when `baseUrl` resolves to the project root, and returns
`undefined` for any other resolved `baseUrl`. -/
theorem getJestAliases_spec (pp : ProjectPaths) (options : JsVal) :
    (getField options "baseUrl" = Except.ok JsVal.undef →
      getJestAliases pp options = Except.ok (JsVal.obj [])) ∧
    (∀ b : String, getField options "baseUrl" = Except.ok (JsVal.str b) → b ≠ "" →
      (pathRelEmpty pp.appPath (pathResolve pp.appPath b) = true →
        getJestAliases pp options =
          Except.ok (JsVal.obj [("^src/(.*)$", JsVal.str "<rootDir>/src/$1")])) ∧
      (pathRelEmpty pp.appPath (pathResolve pp.appPath b) = false →
        getJestAliases pp options = Except.ok JsVal.undef)) := by
  refine ⟨fun h => by simp [getJestAliases, h, truthy],
    fun b hb hne => ⟨fun hr => ?_, fun hr => ?_⟩⟩ <;>
    simp [getJestAliases, hb, truthy, hne, JsVal.asStr, hr]

/-- Witness for C9: with the example project paths and `baseUrl: "."`
(the project root), the fixed Jest mapping is returned. -/
theorem getJestAliases_spec_witness :
    getJestAliases ppEx (JsVal.obj [("baseUrl", JsVal.str ".")]) =
      Except.ok (JsVal.obj [("^src/(.*)$", JsVal.str "<rootDir>/src/$1")]) :=
  ((getJestAliases_spec ppEx (JsVal.obj [("baseUrl", JsVal.str ".")])).2 "."
      rfl (by decide)).1 (by decide)

/-- C10: when both config files exist, `getModules` throws the
conflicting-config error.  The parsed configs and the parent loader in
the environment are universally quantified and unread: the error occurs
before any config loading, merging or alias computation. -/
theorem getModules_conflict (pp : ProjectPaths) (env : ModulesEnv)
    (hts : env.hasTsConfig = true) (hjs : env.hasJsConfig = true) :
    getModules pp env = Except.error (JsErr.error conflictingConfigMsg) := by
  simp [getModules, hts, hjs]

/-- Witness for C10: a concrete environment with both config files
present yields the conflicting-config error. -/
theorem getModules_conflict_witness :
    getModules ppEx (ModulesEnv.mk true true JsVal.undef JsVal.undef (fun _ => JsVal.undef)) =
      Except.error (JsErr.error conflictingConfigMsg) :=
  getModules_conflict ppEx
    (ModulesEnv.mk true true JsVal.undef JsVal.undef (fun _ => JsVal.undef)) rfl rfl

/-- C3 (failing input): with `baseUrl: "."` — which resolves to the
project root — and the supplied paths table `{"@app/*": ["src/app/*"]}`,
`getWebpackAliases` does not return `{ src: <src dir>, ...paths }` as the
claim states: the destructured local `paths` shadows the project paths,
`paths.appPath` is `undefined`, and `path.resolve` throws a `TypeError`. -/
theorem getWebpackAliases_root_failing :
    getWebpackAliases (JsVal.obj [("baseUrl", JsVal.str "."),
      ("paths", JsVal.obj [("@app/*", JsVal.arr [JsVal.str "src/app/*"])])]) =
      Except.error JsErr.typeError := rfl

/-- C4: with a truthy `baseUrl`, `getWebpackAliases` reads `appPath` (and,
for the returned table, `appSrc`) off the caller's `paths` value — the
destructured binding shadows the project-paths module, so the function
(which accordingly takes no `ProjectPaths` argument in this embedding)
never sees the real project root or `src` directory: a nullish `paths`
propagates the property-access `TypeError`, a non-string `appPath` field
makes `path.resolve` throw a `TypeError`, and when `appPath` is a string
the resolution happens against it, returning `{src: paths.appSrc,
...paths}` on a fixpoint. -/
theorem getWebpackAliases_shadowed_paths (options bu pv : JsVal)
    (hb : getField options "baseUrl" = Except.ok bu) (hbt : truthy bu = true)
    (hp : getField options "paths" = Except.ok pv) :
    (∀ e, getField pv "appPath" = Except.error e →
      getWebpackAliases options = Except.error e) ∧
    (∀ apv, getField pv "appPath" = Except.ok apv → apv.asStr = none →
      getWebpackAliases options = Except.error JsErr.typeError) ∧
    (∀ ap b, getField pv "appPath" = Except.ok (JsVal.str ap) → bu = JsVal.str b →
      pathRelEmpty ap (pathResolve ap b) = true →
      ∃ sv, getField pv "appSrc" = Except.ok sv ∧
        getWebpackAliases options =
          Except.ok (JsVal.obj (objSpread [("src", sv)] (spreadEntries pv)))) := by
  refine ⟨?_, ?_, ?_⟩
  · intro e he
    simp [getWebpackAliases, hb, hp, hbt, he]
  · intro apv hap hstr
    simp [getWebpackAliases, hb, hp, hbt, hap, hstr]
  · intro ap b hap hbu hrel
    subst hbu
    cases pv with
    | obj fields =>
        simp only [getField, Except.ok.injEq] at hap
        simp only [truthy] at hbt
        refine ⟨(List.lookup "appSrc" fields).getD JsVal.undef, rfl, ?_⟩
        simp only [getWebpackAliases, hb, hp]
        simp [truthy, hbt, getField, hap, JsVal.asStr, hrel]
    | undef => simp [getField] at hap
    | null => simp [getField] at hap
    | bool c => simp [getField, JsVal.asStr] at hap
    | num n => simp [getField, JsVal.asStr] at hap
    | str s => simp [getField, JsVal.asStr] at hap
    | arr xs => simp [getField, JsVal.asStr] at hap

/-- Witness for C4: a truthy `baseUrl` with an ordinary paths table (no
`appPath` field) throws a `TypeError`. -/
theorem getWebpackAliases_shadowed_paths_witness :
    getWebpackAliases (JsVal.obj [("baseUrl", JsVal.str "."),
        ("paths", JsVal.obj [("x", JsVal.str "y")])]) =
      Except.error JsErr.typeError :=
  (getWebpackAliases_shadowed_paths
      (JsVal.obj [("baseUrl", JsVal.str "."), ("paths", JsVal.obj [("x", JsVal.str "y")])])
      (JsVal.str ".") (JsVal.obj [("x", JsVal.str "y")])
      rfl rfl rfl).2.1 JsVal.undef rfl rfl

/-- C5: `configPathsRaw` merges `{...confPaths, ...extPaths}`, so for any
key present in both the child's and the parent's `compilerOptions.paths`,
the merged mapping carries the parent's value: the merge starts from the
child's entries and overlays the parent's on top. -/
theorem configPathsRaw_parent_wins (cp ep : List (String × JsVal)) (k : String)
    (v : JsVal) (hnd : (ep.map Prod.fst).Nodup)
    (_hchild : (List.lookup k cp).isSome = true)
    (hparent : List.lookup k ep = some v) :
    configPathsRaw (JsVal.obj
        [("compilerOptions", JsVal.obj [("paths", JsVal.obj cp)]),
         ("extends", JsVal.obj [("compilerOptions", JsVal.obj [("paths", JsVal.obj ep)])])]) =
      Except.ok (JsVal.obj (objSpread cp ep)) ∧
    List.lookup k (objSpread cp ep) = some v := by
  constructor
  · simp [configPathsRaw, ternaryPaths, getField, List.lookup, truthy_obj,
      typeofIsObject_obj, spreadEntries]
  · exact lookup_objSpread_right ep cp k v hnd hparent

/-- Witness for C5: child and parent both bind `utils/*`; the merged raw
paths carry the parent's entry. -/
theorem configPathsRaw_parent_wins_witness :
    configPathsRaw (JsVal.obj
        [("compilerOptions", JsVal.obj [("paths",
            JsVal.obj [("utils/*", JsVal.arr [JsVal.str "./child/utils/*"])])]),
         ("extends", JsVal.obj [("compilerOptions", JsVal.obj [("paths",
            JsVal.obj [("utils/*", JsVal.arr [JsVal.str "./parent/utils/*"])])])])]) =
      Except.ok (JsVal.obj [("utils/*", JsVal.arr [JsVal.str "./parent/utils/*"])]) ∧
    List.lookup "utils/*" (objSpread
        [("utils/*", JsVal.arr [JsVal.str "./child/utils/*"])]
        [("utils/*", JsVal.arr [JsVal.str "./parent/utils/*"])]) =
      some (JsVal.arr [JsVal.str "./parent/utils/*"]) :=
  configPathsRaw_parent_wins
    [("utils/*", JsVal.arr [JsVal.str "./child/utils/*"])]
    [("utils/*", JsVal.arr [JsVal.str "./parent/utils/*"])]
    "utils/*" (JsVal.arr [JsVal.str "./parent/utils/*"]) (by decide) rfl rfl

/-- C6: the merge step (`if (hasExtends) config = readConfig(...)` in
`getModules`) leaves a config whose `extends` field is absent unchanged:
`readConfig` is not invoked, the `extends` field is not replaced and
`compilerOptions.paths` is untouched.  In particular the step is
idempotent on configs that never had an `extends` field. -/
theorem mergeConfigStep_no_extends (pp : ProjectPaths) (loadParent : String → JsVal)
    (config : JsVal) (configDir : String)
    (h : getField config "extends" = Except.ok JsVal.undef) :
    mergeConfigStep pp loadParent config configDir = Except.ok config := by
  simp [mergeConfigStep, h, truthy]

/-- Witness for C6: a concrete config with no `extends` field passes
through the merge step unchanged. -/
theorem mergeConfigStep_no_extends_witness :
    mergeConfigStep ppEx (fun _ => JsVal.undef)
        (JsVal.obj [("compilerOptions", JsVal.obj [("baseUrl", JsVal.str "src")])])
        "/app/tsconfig.json" =
      Except.ok (JsVal.obj [("compilerOptions", JsVal.obj [("baseUrl", JsVal.str "src")])]) :=
  mergeConfigStep_no_extends ppEx (fun _ => JsVal.undef)
    (JsVal.obj [("compilerOptions", JsVal.obj [("baseUrl", JsVal.str "src")])])
    "/app/tsconfig.json" rfl

/-- Helper for C7: when a key is not hit any more, the alias fold leaves
its binding in the accumulator untouched (and succeeds as long as every
remaining target is a string). -/
theorem aliasFold_notin (pp : ProjectPaths) (entries : List (String × JsVal)) :
    ∀ (acc : List (String × JsVal)) (k : String),
      (∀ kv ∈ entries, (pathTarget kv.2).isSome = true) →
      k ∉ entries.map (fun kv => stripSlashStar kv.1) →
      ∃ m, aliasFold pp acc entries = Except.ok m ∧
        List.lookup k m = List.lookup k acc := by
  induction entries with
  | nil => intro acc k _ _; exact ⟨acc, rfl, rfl⟩
  | cons kv rest ih =>
    intro acc k hwf hk
    obtain ⟨k', v'⟩ := kv
    obtain ⟨t, ht⟩ := Option.isSome_iff_exists.mp (hwf (k', v') (List.mem_cons_self _ _))
    rw [List.map_cons, List.mem_cons] at hk
    push_neg at hk
    obtain ⟨m, hm, hl⟩ := ih
      (objSet acc (stripSlashStar k') (JsVal.str (pathResolve pp.appPath (stripSlashStar t))))
      k (fun kv hkv => hwf kv (List.mem_cons_of_mem _ hkv)) hk.2
    refine ⟨m, ?_, ?_⟩
    · simpa [aliasFold, ht] using hm
    · rw [hl, lookup_objSet_other _ _ _ _ hk.1]

/-- Helper for C7: an entry `k ↦ [t, ...]` of the raw paths produces the
alias binding `strip k ↦ resolve(appPath, strip t)` in the fold's
result. -/
theorem aliasFold_mem (pp : ProjectPaths) (entries : List (String × JsVal)) :
    ∀ (acc : List (String × JsVal)) (k t : String) (rest : List JsVal),
      (∀ kv ∈ entries, (pathTarget kv.2).isSome = true) →
      (entries.map (fun kv => stripSlashStar kv.1)).Nodup →
      (k, JsVal.arr (JsVal.str t :: rest)) ∈ entries →
      ∃ m, aliasFold pp acc entries = Except.ok m ∧
        List.lookup (stripSlashStar k) m =
          some (JsVal.str (pathResolve pp.appPath (stripSlashStar t))) := by
  induction entries with
  | nil => intro acc k t rest _ _ hmem; cases hmem
  | cons kv tail ih =>
    intro acc k t rest hwf hnd hmem
    obtain ⟨k', v'⟩ := kv
    rw [List.map_cons, List.nodup_cons] at hnd
    rcases List.mem_cons.mp hmem with hhead | htail
    · cases hhead
      obtain ⟨m, hm, hl⟩ := aliasFold_notin pp tail
        (objSet acc (stripSlashStar k)
          (JsVal.str (pathResolve pp.appPath (stripSlashStar t))))
        (stripSlashStar k)
        (fun kv hkv => hwf kv (List.mem_cons_of_mem _ hkv)) hnd.1
      refine ⟨m, ?_, ?_⟩
      · simpa [aliasFold, pathTarget, JsVal.asStr] using hm
      · rw [hl, lookup_objSet_self]
    · obtain ⟨t', ht'⟩ := Option.isSome_iff_exists.mp (hwf (k', v') (List.mem_cons_self _ _))
      obtain ⟨m, hm, hl⟩ := ih
        (objSet acc (stripSlashStar k')
          (JsVal.str (pathResolve pp.appPath (stripSlashStar t'))))
        k t rest (fun kv hkv => hwf kv (List.mem_cons_of_mem _ hkv)) hnd.2 htail
      refine ⟨m, ?_, hl⟩
      simpa [aliasFold, ht'] using hm

/-- C7: for an entry `k ↦ [t, ...]` of the merged raw paths mapping (all
entries having string first targets and the stripped keys not
colliding), the alias map computed inside `readConfig` — which feeds the
returned `compilerOptions.paths` with the alias entries winning — binds
the key with one trailing `/*` stripped to the first target with its
trailing `/*` stripped, resolved absolutely against the project root. -/
theorem aliasMapOf_entry (pp : ProjectPaths) (entries : List (String × JsVal))
    (k t : String) (rest : List JsVal)
    (hwf : ∀ kv ∈ entries, (pathTarget kv.2).isSome = true)
    (hnd : (entries.map (fun kv => stripSlashStar kv.1)).Nodup)
    (hmem : (k, JsVal.arr (JsVal.str t :: rest)) ∈ entries) :
    Except.map (fun m => List.lookup (stripSlashStar k) m)
        (aliasMapOf pp (JsVal.obj entries)) =
      Except.ok (some (JsVal.str (pathResolve pp.appPath (stripSlashStar t)))) := by
  obtain ⟨m, hm, hl⟩ := aliasFold_mem pp entries [] k t rest hwf hnd hmem
  rw [aliasMapOf]
  simp only [spreadEntries]
  rw [hm]
  simp [Except.map, hl]

/-- Witness for C7: key `components/*` mapped to `["./src/components/*"]`
yields the alias entry `components -> /app/src/components` against the
example project root `/app`. -/
theorem aliasMapOf_entry_witness :
    Except.map (fun m => List.lookup "components" m)
        (aliasMapOf ppEx (JsVal.obj
          [("components/*", JsVal.arr [JsVal.str "./src/components/*"])])) =
      Except.ok (some (JsVal.str "/app/src/components")) :=
  aliasMapOf_entry ppEx [("components/*", JsVal.arr [JsVal.str "./src/components/*"])]
    "components/*" "./src/components/*" []
    (by intro kv hkv
        rw [List.mem_singleton] at hkv
        subst hkv
        rfl)
    (by decide) (List.mem_singleton.mpr rfl)

/-- C8 (counterexample): an array is present and is not a mapping, yet
`configPathsRaw` raises no error for it: the guard tests JS `typeof`,
which is `"object"` for arrays, and the array is spread into the merge
with its indices as keys. -/
theorem configPathsRaw_array_passes :
    configPathsRaw (JsVal.obj [("compilerOptions",
        JsVal.obj [("paths", JsVal.arr [JsVal.str "x"])])]) =
      Except.ok (JsVal.obj [("0", JsVal.str "x")]) := rfl

/-- C8 (amended): `configPathsRaw` fails, with one of the two
invalid-paths errors, exactly when the child's or the parent's
`compilerOptions.paths` value is truthy and of a JS `typeof` other than
`"object"` (a string, number or `true`); mappings and absent or falsy
values never error, but arrays — not mappings — also pass the `typeof`
test. -/
theorem configPathsRaw_error_iff (p q : JsVal) :
    ((∃ e, configPathsRaw (JsVal.obj
        [("compilerOptions", JsVal.obj [("paths", p)]),
         ("extends", JsVal.obj [("compilerOptions", JsVal.obj [("paths", q)])])]) =
      Except.error e) ↔
      ((truthy p = true ∧ typeofIsObject p = false) ∨
       (truthy q = true ∧ typeofIsObject q = false))) ∧
    (∀ e, configPathsRaw (JsVal.obj
        [("compilerOptions", JsVal.obj [("paths", p)]),
         ("extends", JsVal.obj [("compilerOptions", JsVal.obj [("paths", q)])])]) =
      Except.error e →
      e = JsErr.error invalidOwnPathsMsg ∨ e = JsErr.error invalidExtPathsMsg) := by
  cases hp : truthy p <;> cases hq : truthy q <;>
    cases hop : typeofIsObject p <;> cases hoq : typeofIsObject q <;>
      simp [configPathsRaw, ternaryPaths, getField, List.lookup, truthy_obj,
        typeofIsObject_obj, hp, hq, hop, hoq]

/-- Witness for C8 (amended): a string `paths` value is truthy and not of
`typeof` object, so the merge fails. -/
theorem configPathsRaw_error_iff_witness :
    ∃ e, configPathsRaw (JsVal.obj
        [("compilerOptions", JsVal.obj [("paths", JsVal.str "bad")]),
         ("extends", JsVal.obj [("compilerOptions", JsVal.obj [("paths", JsVal.undef)])])]) =
      Except.error e :=
  (configPathsRaw_error_iff (JsVal.str "bad") JsVal.undef).1.mpr (Or.inl ⟨rfl, rfl⟩)
